import Mathlib

/-!
Formal model of the asynchronous enemy-move scheduler of `main.py`
(class `Game`): the sliding-window rate limiter embedded in
`async_calc_next_enemy_moves`, the Gemini-call retry loop of
`calc_next_enemy_move`, the greedy `fallback_enemy_moves` generator, the
thread-spawn guard, and the per-tick scheduling condition of `Game.run`.

Machine conventions: world coordinates and timestamps are modelled as `Int`
(time in seconds, as `time.time()` differences are only ever compared to 60);
Python's `//` floor division is `Int.fdiv`; a Python function that may return
`None` returns an `Option`.
-/

namespace GenAIGame

/-- A per-entity list of future positions; `Moves` is the shape of
`Game.enemy_moves` (one list of `(x, y)` pairs per enemy). -/
abbrev Moves := List (List (Int × Int))

/-! ## Rate limiter (lines 277-289 of `main.py`)

`async_calc_next_enemy_moves` keeps `self.api_call_timestamps`, drops entries
older than 60 seconds, rejects when 15 or more remain, and otherwise records
the current time. -/

/-- The pruning step: `[t for t in self.api_call_timestamps if current_time - t < 60]`. -/
def prune (now : Int) (ts : List Int) : List Int :=
  ts.filter fun t => now - t < 60

/-- One rate-limiter decision, exactly the locked section of `fetch_moves`:
prune, then reject (without recording) iff 15 or more records remain,
otherwise append `now`.  Returns (admitted?, records afterwards). -/
def tryAdmit (now : Int) (ts : List Int) : Bool × List Int :=
  let pruned := prune now ts
  if 15 ≤ pruned.length then (false, pruned) else (true, pruned ++ [now])

/-- The chronological list of admitted timestamps produced by running the
rate limiter over a sequence of attempt times, starting from records `recs`. -/
def admittedOf : List Int → List Int → List Int
  | [], _ => []
  | now :: rest, recs =>
    let r := tryAdmit now recs
    if r.1 then now :: admittedOf rest r.2 else admittedOf rest r.2

/-- The admit/reject decision for each attempt in a sequence, in order. -/
def admitFlags : List Int → List Int → List Bool
  | [], _ => []
  | now :: rest, recs =>
    let r := tryAdmit now recs
    r.1 :: admitFlags rest r.2

/-- Membership of time `t` in the trailing window ending at `T`: the window
`(T - 60, T]`, matching the pruning rule's strict `now - t < 60`. -/
def inWindow (T t : Int) : Bool := decide (T - t < 60) && decide (t ≤ T)

/-- Attempt timestamps arrive in non-decreasing order. -/
abbrev nondecreasing (l : List Int) : Prop := l.Sorted (· ≤ ·)

/-! ## Fallback move generation (`Game.fallback_enemy_moves`, lines 314-329)

For each enemy the Python loop runs `num_moves` times; each iteration
recomputes `dx, dy` from `enemy.rect.center` (which the loop never updates)
and appends `(enemy.rect.centerx + step_x, enemy.rect.centery + step_y)`. -/

/-- `dx // abs(dx) if dx != 0 else 0` — Python floor division is `Int.fdiv`. -/
def fallbackStep (d : Int) : Int :=
  if d ≠ 0 then Int.fdiv d |d| else 0

/-- The inner `for _ in range(num_moves)` loop for one enemy: each iteration
reads the (unchanged) enemy center and the player center and appends one
stepped position. -/
def fallbackMovesFor (enemy player : Int × Int) : Nat → List (Int × Int)
  | 0 => []
  | n + 1 =>
    let dx := player.1 - enemy.1
    let dy := player.2 - enemy.2
    (enemy.1 + fallbackStep dx, enemy.2 + fallbackStep dy) :: fallbackMovesFor enemy player n

/-- `Game.fallback_enemy_moves`: returns immediately (leaving `enemy_moves`
at its current value `cur`) when `stop_threads` is set, otherwise rebuilds
`enemy_moves` with one generated list per enemy. -/
def fallback_enemy_moves (stop : Bool) (enemies : List (Int × Int))
    (player : Int × Int) (numMoves : Nat) (cur : Moves) : Moves :=
  if stop then cur else enemies.map fun e => fallbackMovesFor e player numMoves

/-! ## Oracle call with retries (`Game.calc_next_enemy_move`, lines 216-269) -/

/-- Outcome of one `generate_content` attempt plus response handling:
a successfully parsed list of move lists; a JSON payload that is not a list
(`return None`); a `JSONDecodeError` or Pydantic failure (`return None`);
or an exception from the call itself, `transient` iff `"502" in str(e)`. -/
inductive OracleResp where
  | ok (moves : Moves)
  | notList
  | parseFailure
  | httpFailure (transient : Bool)
deriving DecidableEq

/-- What one run of the retry loop produced: the returned value (`none`
models Python's `None`), how many attempts were made, and the
`time.sleep(2 ** attempt)` backoff delays performed, in order. -/
structure CalcResult where
  result : Option Moves
  attempts : Nat
  delays : List Nat
deriving DecidableEq

/-- The `for attempt in range(retries)` loop of `calc_next_enemy_move`, with
the oracle's behaviour at each attempt index given by `oracle`.  A transient
(`"502"`) exception with `attempt < retries - 1` sleeps `2 ** attempt` and
retries; every other outcome leaves the loop at once.  `fuel` bounds the
recursion; running out corresponds to the loop finishing all iterations and
falling through to the final `return None`. -/
def calcAux (oracle : Nat → OracleResp) (retries : Nat) : Nat → Nat → CalcResult
  | _, 0 => ⟨none, 0, []⟩
  | attempt, fuel + 1 =>
    match oracle attempt with
    | .ok moves => ⟨some moves, 1, []⟩
    | .notList => ⟨none, 1, []⟩
    | .parseFailure => ⟨none, 1, []⟩
    | .httpFailure transient =>
      if transient && decide (attempt < retries - 1) then
        let r := calcAux oracle retries (attempt + 1) fuel
        ⟨r.result, r.attempts + 1, 2 ^ attempt :: r.delays⟩
      else ⟨none, 1, []⟩

/-- `Game.calc_next_enemy_move`: the retry loop starting at attempt 0; in the
source `retries = 3`. -/
def calc_next_enemy_move (oracle : Nat → OracleResp) (retries : Nat) : CalcResult :=
  calcAux oracle retries 0 retries

/-- Scenario oracle: every attempt raises a `"502"`-class (transient) error. -/
def alwaysTransientOracle : Nat → OracleResp := fun _ => OracleResp.httpFailure true

/-- Scenario oracle: every attempt raises a non-transient error. -/
def backendDownOracle : Nat → OracleResp := fun _ => OracleResp.httpFailure false

/-! ## Scheduler state and thread spawning (`async_calc_next_enemy_moves`,
lines 271-312, and the scheduling check of `Game.run`, lines 387-390) -/

/-- The scheduler-relevant fields of `Game`: the stop flag, the rate-limiter
records, the shared move queues, and the number of background jobs ever
appended to `self.threads`. -/
structure GameState where
  stop_threads : Bool
  api_call_timestamps : List Int
  enemy_moves : Moves
  threads : Nat
deriving DecidableEq

/-- The spawning part of `Game.async_calc_next_enemy_moves` (lines 305-312):
if `stop_threads` is set, return without creating a thread; otherwise
create, append and start one new background job. -/
def async_calc_next_enemy_moves (s : GameState) : GameState :=
  if s.stop_threads then s else { s with threads := s.threads + 1 }

/-- The scheduling condition of `Game.run` line 388:
`not self.enemy_moves or len(self.enemy_moves[0]) == 0` — note only the
first queue's length is inspected. -/
def needs_new_moves (moves : Moves) : Bool :=
  match moves with
  | [] => true
  | q :: _ => q.isEmpty

/-- Lines 387-390 of `Game.run`: on each tick, if the scheduling condition
holds, invoke `async_calc_next_enemy_moves`. -/
def tick_schedule (s : GameState) : GameState :=
  if needs_new_moves s.enemy_moves then async_calc_next_enemy_moves s else s

/-- The body of the background job `fetch_moves` inside
`async_calc_next_enemy_moves` (lines 273-303), as a function of the stop
flag observed at the `while not self.stop_threads` guard (`stop1`), the stop
flag observed at the re-check after `calc_next_enemy_move` returns
(`stop2`), the rate-limiter records `ts`, the current move queues `cur`, and
the value `calcResult` returned by the in-flight `calc_next_enemy_move`.
Returns the final (`api_call_timestamps`, `enemy_moves`) pair.  Python's
`if new_moves:` is falsy both for `None` and for an empty list. -/
def fetch_moves (stop1 stop2 : Bool) (ts : List Int) (now : Int) (cur : Moves)
    (calcResult : Option Moves) (enemies : List (Int × Int)) (player : Int × Int)
    (numMoves : Nat) : List Int × Moves :=
  if stop1 then (ts, cur)
  else
    let pruned := prune now ts
    if 15 ≤ pruned.length then
      (pruned, fallback_enemy_moves stop1 enemies player numMoves cur)
    else
      let ts2 := pruned ++ [now]
      if stop2 then (ts2, cur)
      else
        match calcResult with
        | some mv =>
          if mv.isEmpty then (ts2, fallback_enemy_moves stop2 enemies player numMoves cur)
          else (ts2, mv)
        | none => (ts2, fallback_enemy_moves stop2 enemies player numMoves cur)

/-! ## Helper lemmas -/

/-- The per-axis fallback step is a sign: bounded by 1 in absolute value and
zero exactly on a zero difference. -/
lemma fallbackStep_spec (d : Int) : |fallbackStep d| ≤ 1 ∧ (fallbackStep d = 0 ↔ d = 0) := by
  rcases lt_trichotomy d 0 with h | h | h
  · have hd : d ≠ 0 := ne_of_lt h
    have hstep : fallbackStep d = -1 := by
      rw [fallbackStep, if_pos hd, abs_of_neg h, Int.fdiv_eq_ediv _ (by omega),
        Int.ediv_neg, Int.ediv_self hd]
    rw [hstep]
    exact ⟨by decide, by omega⟩
  · subst h
    simp [fallbackStep]
  · have hd : d ≠ 0 := ne_of_gt h
    have hstep : fallbackStep d = 1 := by
      rw [fallbackStep, if_pos hd, abs_of_pos h, Int.fdiv_self hd]
    rw [hstep]
    exact ⟨by decide, by omega⟩

/-- Filtering with a predicate that implies another (on the list's members)
yields at most as many elements. -/
lemma length_filter_le_of_imp (l : List Int) (p q : Int → Bool)
    (h : ∀ t ∈ l, p t = true → q t = true) :
    (l.filter p).length ≤ (l.filter q).length := by
  induction l with
  | nil => simp
  | cons a l ih =>
    have ha := h a (List.mem_cons_self a l)
    have ihh := ih fun t ht => h t (List.mem_cons_of_mem a ht)
    simp only [List.filter_cons]
    by_cases hp : p a = true
    · rw [if_pos hp, if_pos (ha hp)]
      simpa using ihh
    · rw [if_neg hp]
      by_cases hq : q a = true
      · rw [if_pos hq]
        simp only [List.length_cons]
        omega
      · rw [if_neg hq]
        exact ihh

/-- Pruning twice with a later `now` is pruning once with the later `now`. -/
lemma prune_prune {u now : Int} (h : u ≤ now) (l : List Int) :
    prune now (prune u l) = prune now l := by
  unfold prune
  rw [List.filter_filter]
  refine List.filter_congr fun t _ => ?_
  by_cases h1 : now - t < 60
  · have h2 : u - t < 60 := by omega
    simp [h1, h2]
  · simp [h1]

/-- Appending the admission time to the pruned records is itself a pruning:
`now` always lies inside its own window. -/
lemma prune_append_self (now : Int) (l : List Int) :
    prune now (l ++ [now]) = prune now l ++ [now] := by
  unfold prune
  rw [List.filter_append]
  simp

/-- Main invariant of the rate limiter.  If the records equal the previously
admitted timestamps pruned at `u`, all previously admitted timestamps are at
most `u`, every trailing window already holds at most 15 of them, and the
remaining attempts are sorted and at least `u`, then after running the
limiter every trailing window still holds at most 15 admitted timestamps. -/
lemma admit_aux :
    ∀ (attempts : List Int) (u : Int) (admprev : List Int),
      nondecreasing attempts →
      (∀ a ∈ attempts, u ≤ a) →
      (∀ t ∈ admprev, t ≤ u) →
      (∀ T, ((admprev.filter (inWindow T)).length ≤ 15)) →
      ∀ T, (((admprev ++ admittedOf attempts (prune u admprev)).filter (inWindow T)).length ≤ 15)
  | [], _, _, _, _, _, hwin, T => by
    simpa [admittedOf] using hwin T
  | now :: rest, u, admprev, hs, hlb, hprev, hwin, T => by
    have hun : u ≤ now := hlb now (List.mem_cons_self now rest)
    have hs' : nondecreasing rest := (List.sorted_cons.mp hs).2
    have hlbrest : ∀ a ∈ rest, now ≤ a := (List.sorted_cons.mp hs).1
    have hprev' : ∀ t ∈ admprev, t ≤ now := fun t ht => le_trans (hprev t ht) hun
    have hprune : prune now (prune u admprev) = prune now admprev := prune_prune hun admprev
    have hstep : admittedOf (now :: rest) (prune u admprev) =
        if 15 ≤ (prune now admprev).length then admittedOf rest (prune now admprev)
        else now :: admittedOf rest (prune now admprev ++ [now]) := by
      by_cases hc : 15 ≤ (prune now admprev).length
      · simp [admittedOf, tryAdmit, hprune, hc]
      · simp [admittedOf, tryAdmit, hprune, hc]
    rw [hstep]
    by_cases hc : 15 ≤ (prune now admprev).length
    · rw [if_pos hc]
      exact admit_aux rest now admprev hs' hlbrest hprev' hwin T
    · rw [if_neg hc]
      have hx : prune now admprev ++ [now] = prune now (admprev ++ [now]) :=
        (prune_append_self now admprev).symm
      have hwin' : ∀ T', (((admprev ++ [now]).filter (inWindow T')).length ≤ 15) := by
        intro T'
        rw [List.filter_append]
        by_cases hw : inWindow T' now = true
        · have hnowle : now ≤ T' ∧ T' - now < 60 := by
            have := hw
            simp only [inWindow, Bool.and_eq_true, decide_eq_true_eq] at this
            exact ⟨this.2, this.1⟩
          have h1 : (admprev.filter (inWindow T')).length ≤ (prune now admprev).length := by
            unfold prune
            apply length_filter_le_of_imp
            intro t _ hwt
            simp only [inWindow, Bool.and_eq_true, decide_eq_true_eq] at hwt
            have : now - t < 60 := by omega
            simpa using this
          have h2 : (List.filter (inWindow T') [now]).length = 1 := by simp [hw]
          rw [List.length_append, h2]
          omega
        · have h2 : (List.filter (inWindow T') [now]).length = 0 := by
            simp only [Bool.not_eq_true] at hw
            simp [hw]
          rw [List.length_append, h2]
          simpa using hwin T'
      have hprevnow : ∀ t ∈ admprev ++ [now], t ≤ now := by
        intro t ht
        rcases List.mem_append.mp ht with h | h
        · exact hprev' t h
        · simp only [List.mem_singleton] at h
          omega
      have h := admit_aux rest now (admprev ++ [now]) hs' hlbrest hprevnow hwin' T
      rw [← hx] at h
      rwa [List.append_cons admprev now
        (admittedOf rest (prune now admprev ++ [now]))]

/-! ## Claim theorems -/

/-- C3: for every non-decreasing sequence of admission attempts, the rate
limiter admits at most 15 calls inside any trailing window of 60 time-units
(the window `(T - 60, T]`, matching the pruning rule's strict `now - t < 60`),
for every window placement `T`. -/
theorem C3_sliding_window_bound (attempts : List Int) (hs : nondecreasing attempts)
    (T : Int) :
    ((admittedOf attempts []).filter (inWindow T)).length ≤ 15 := by
  cases attempts with
  | nil => simp [admittedOf]
  | cons a rest =>
    have hlb : ∀ x ∈ a :: rest, a ≤ x := by
      intro x hx
      rcases List.mem_cons.mp hx with h | h
      · omega
      · exact (List.sorted_cons.mp hs).1 x h
    have h := admit_aux (a :: rest) a [] hs hlb (by intro t ht; simp at ht)
      (by intro T'; simp) T
    simpa [prune] using h

/-- Witness for C3 at a concrete sorted attempt sequence and window. -/
theorem C3_witness :
    nondecreasing [0, 30, 100] ∧
    ((admittedOf [0, 30, 100] []).filter (inWindow 100)).length ≤ 15 :=
  ⟨by decide, C3_sliding_window_bound [0, 30, 100] (by decide) 100⟩

/-- C4: oracle-side failures are absorbed locally: the retry loop is a total
function whose result is the failure value `none` unless the oracle actually
returned a successfully parsed move list at some attempt (no exception
escapes), and a background job whose oracle call returns the failure value
installs the fallback moves into the shared queues. -/
theorem C4_failures_absorbed :
    (∀ (oracle : Nat → OracleResp) (retries attempt fuel : Nat),
        (calcAux oracle retries attempt fuel).result = none ∨
        ∃ mv, (calcAux oracle retries attempt fuel).result = some mv ∧
          ∃ k, oracle k = OracleResp.ok mv) ∧
    ∀ (ts : List Int) (now : Int) (cur : Moves) (enemies : List (Int × Int))
        (player : Int × Int) (n : Nat),
      (fetch_moves false false ts now cur none enemies player n).2 =
        fallback_enemy_moves false enemies player n cur := by
  constructor
  · intro oracle retries attempt fuel
    induction fuel generalizing attempt with
    | zero => left; rfl
    | succ fuel ih =>
      cases h : oracle attempt with
      | ok mv =>
        right
        exact ⟨mv, by simp [calcAux, h], attempt, h⟩
      | notList => left; simp [calcAux, h]
      | parseFailure => left; simp [calcAux, h]
      | httpFailure transient =>
        by_cases hretry : transient && decide (attempt < retries - 1)
        · rcases ih (attempt + 1) with hnone | ⟨mv, hmv, k, hk⟩
          · left
            simp [calcAux, h, hretry, hnone]
          · right
            exact ⟨mv, by simp [calcAux, h, hretry, hmv], k, hk⟩
        · left
          simp [calcAux, h, hretry]
  · intro ts now cur enemies player n
    by_cases hc : 15 ≤ (prune now ts).length
    · simp [fetch_moves, hc]
    · simp [fetch_moves, hc]


/-- C1: claimed: the fallback move computation chains its steps, so an enemy
at (100,100) with the player at (100,70) and numMoves = 5 yields
(100,99),(100,98),(100,97),(100,96),(100,95).  The code never updates the
enemy's running position inside the generation loop, so at that input it
yields five identical copies of (100,99); the claimed chained sequence is
not produced. -/
theorem C1_fallback_does_not_chain :
    fallbackMovesFor (100, 100) (100, 70) 5 =
      [(100, 99), (100, 99), (100, 99), (100, 99), (100, 99)] ∧
    fallbackMovesFor (100, 100) (100, 70) 5 ≠
      [(100, 99), (100, 98), (100, 97), (100, 96), (100, 95)] := by
  decide

/-- C10: every position generated by the fallback generator for an enemy
differs from that enemy's center, as read at generation time, by at most 1
in each coordinate, and coincides with it on an axis exactly when the player
and the enemy share that axis coordinate. -/
theorem C10_fallback_one_pixel_bound (e p : Int × Int) (n : Nat) (m : Int × Int)
    (hm : m ∈ fallbackMovesFor e p n) :
    |m.1 - e.1| ≤ 1 ∧ |m.2 - e.2| ≤ 1 ∧ (m.1 = e.1 ↔ p.1 = e.1) ∧ (m.2 = e.2 ↔ p.2 = e.2) := by
  induction n with
  | zero => simp [fallbackMovesFor] at hm
  | succ n ih =>
    rw [fallbackMovesFor] at hm
    rcases List.mem_cons.mp hm with h | h
    · subst h
      obtain ⟨hx1, hx2⟩ := fallbackStep_spec (p.1 - e.1)
      obtain ⟨hy1, hy2⟩ := fallbackStep_spec (p.2 - e.2)
      rw [abs_le] at hx1 hy1
      constructor
      · simp only []
        rw [abs_le]
        omega
      constructor
      · simp only []
        rw [abs_le]
        omega
      constructor
      · simp only []
        omega
      · simp only []
        omega
    · exact ih h

/-- Witness for C10 at a concrete input: enemy (0,0), player (3,0), two
generated moves, the member (1,0). -/
theorem C10_witness :
    ((1, 0) : Int × Int) ∈ fallbackMovesFor (0, 0) (3, 0) 2 ∧
    (|(1 : Int) - 0| ≤ 1 ∧ |(0 : Int) - 0| ≤ 1 ∧
      ((1 : Int) = 0 ↔ (3 : Int) = 0) ∧ ((0 : Int) = 0 ↔ (0 : Int) = 0)) :=
  ⟨by decide, C10_fallback_one_pixel_bound (0, 0) (3, 0) 2 (1, 0) (by decide)⟩

/-- C2 counterexample: with one background job already in flight
(`threads = 1`) and the stop flag clear, invoking the scheduling entry point
starts a second background job (`threads = 2`), which the claim forbids. -/
theorem C2_counterexample :
    (async_calc_next_enemy_moves
        { stop_threads := false, api_call_timestamps := [], enemy_moves := [],
          threads := 1 }).threads = 2 := by
  decide

/-- C2 amended: invoking the scheduling entry point starts an additional
background job whenever the stop flag is clear, regardless of how many jobs
are already in flight; the only spawn guard is `stop_threads`, so
at-most-one-in-flight is not enforced. -/
theorem C2_amended_spawn_unguarded (s : GameState) (h : s.stop_threads = false) :
    (async_calc_next_enemy_moves s).threads = s.threads + 1 := by
  simp [async_calc_next_enemy_moves, h]

/-- Witness for the amended C2 at a concrete state with one job in flight. -/
theorem C2_amended_witness :
    ({ stop_threads := false, api_call_timestamps := [], enemy_moves := [],
        threads := 1 } : GameState).stop_threads = false ∧
    (async_calc_next_enemy_moves
        { stop_threads := false, api_call_timestamps := [], enemy_moves := [],
          threads := 1 }).threads =
      ({ stop_threads := false, api_call_timestamps := [], enemy_moves := [],
          threads := 1 } : GameState).threads + 1 :=
  ⟨rfl, C2_amended_spawn_unguarded _ rfl⟩

/-- C5: once the stop flag is set, the scheduling entry point starts no new
background job, and an in-flight oracle job that observes the stop flag at
the re-check after `calc_next_enemy_move` returns leaves the move queues
untouched, whatever result `r` the call produced (the hypothesis selects the
non-rate-limited path, the only one with an oracle call in flight). -/
theorem C5_stop_flag_respected (ts : List Int) (moves : Moves) (tc : Nat)
    (ts2 : List Int) (now : Int) (cur : Moves) (r : Option Moves)
    (enemies : List (Int × Int)) (player : Int × Int) (n : Nat)
    (h : (prune now ts2).length < 15) :
    (async_calc_next_enemy_moves
        { stop_threads := true, api_call_timestamps := ts, enemy_moves := moves,
          threads := tc }).threads = tc ∧
    (fetch_moves false true ts2 now cur r enemies player n).2 = cur := by
  constructor
  · simp [async_calc_next_enemy_moves]
  · simp [fetch_moves, Nat.not_le.mpr h]

/-- Witness for C5 at concrete inputs, with a late-arriving successful
result `some [[(9, 9)]]` that is abandoned. -/
theorem C5_witness :
    (prune 0 []).length < 15 ∧
    (async_calc_next_enemy_moves
        { stop_threads := true, api_call_timestamps := [], enemy_moves := [],
          threads := 5 }).threads = 5 ∧
    (fetch_moves false true [] 0 [[(1, 1)]] (some [[(9, 9)]]) [(0, 0)] (3, 3) 2).2 =
      [[(1, 1)]] :=
  ⟨by decide,
    (C5_stop_flag_respected [] [] 5 [] 0 [[(1, 1)]] (some [[(9, 9)]]) [(0, 0)] (3, 3) 2
      (by decide)).1,
    (C5_stop_flag_respected [] [] 5 [] 0 [[(1, 1)]] (some [[(9, 9)]]) [(0, 0)] (3, 3) 2
      (by decide)).2⟩

/-- C6: with `retries = 3` and an oracle that raises a transient (502-class)
error on every attempt, the retry loop makes exactly 3 attempts with
exponential backoff delays 2^0 and 2^1 between them and returns the failure
value `none`; and an attempt that raises a non-transient error returns
`none` at once, with no further attempts and no backoff. -/
theorem C6_retry_backoff :
    calc_next_enemy_move alwaysTransientOracle 3 = ⟨none, 3, [1, 2]⟩ ∧
    ∀ (oracle : Nat → OracleResp) (retries attempt fuel : Nat),
      oracle attempt = OracleResp.httpFailure false →
      calcAux oracle retries attempt (fuel + 1) = ⟨none, 1, []⟩ := by
  constructor
  · decide
  · intro oracle retries attempt fuel h
    simp [calcAux, h]

/-- Witness for C6's non-transient part at a concrete oracle. -/
theorem C6_witness :
    backendDownOracle 0 = OracleResp.httpFailure false ∧
    calcAux backendDownOracle 3 0 3 = ⟨none, 1, []⟩ :=
  ⟨rfl, C6_retry_backoff.2 backendDownOracle 3 0 2 rfl⟩

/-- C7: on a tick where every move queue is empty (so in particular the
first, which is all line 388 inspects) and the game is running, the
scheduling condition fires and a new scheduling cycle is requested before
the tick returns. -/
theorem C7_no_stall (s : GameState)
    (hempty : s.enemy_moves.all List.isEmpty = true)
    (hrun : s.stop_threads = false) :
    needs_new_moves s.enemy_moves = true ∧ (tick_schedule s).threads = s.threads + 1 := by
  have hneeds : needs_new_moves s.enemy_moves = true := by
    cases hq : s.enemy_moves with
    | nil => rfl
    | cons q rest =>
      rw [hq] at hempty
      simp only [List.all_cons, Bool.and_eq_true] at hempty
      simpa [needs_new_moves] using hempty.1
  refine ⟨hneeds, ?_⟩
  simp [tick_schedule, hneeds, async_calc_next_enemy_moves, hrun]

/-- Witness for C7 at a concrete state with two empty queues. -/
theorem C7_witness :
    (([[], []] : Moves).all List.isEmpty = true) ∧
    (({ stop_threads := false, api_call_timestamps := [], enemy_moves := [[], []],
        threads := 0 } : GameState).stop_threads = false) ∧
    needs_new_moves [[], []] = true ∧
    (tick_schedule
        { stop_threads := false, api_call_timestamps := [], enemy_moves := [[], []],
          threads := 0 }).threads = 0 + 1 :=
  ⟨by decide, rfl,
    C7_no_stall
      { stop_threads := false, api_call_timestamps := [], enemy_moves := [[], []],
        threads := 0 } (by decide) rfl⟩

/-- C9: a rejected admission attempt records nothing: whenever 15 or more
timestamps survive pruning, `tryAdmit` rejects and leaves the record list
exactly as the pruning step left it. -/
theorem C9_reject_records_nothing (now : Int) (ts : List Int)
    (h : 15 ≤ (prune now ts).length) :
    tryAdmit now ts = (false, prune now ts) := by
  simp [tryAdmit, h]

/-- Witness for C9 with 15 in-window records. -/
theorem C9_witness :
    15 ≤ (prune 0 (List.replicate 15 0)).length ∧
    tryAdmit 0 (List.replicate 15 0) = (false, prune 0 (List.replicate 15 0)) :=
  ⟨by decide, C9_reject_records_nothing 0 (List.replicate 15 0) (by decide)⟩

/-- C8: scenario with capacity 15 and window 60: attempts at t = 0..14 are
all admitted, the 16th attempt at t = 15 is rejected, and a fresh attempt at
t = 61 is admitted. -/
theorem C8_scenario :
    admitFlags [0, 1, 2, 3, 4, 5, 6, 7, 8, 9, 10, 11, 12, 13, 14, 15, 61] [] =
      [true, true, true, true, true, true, true, true, true, true, true, true,
        true, true, true, false, true] ∧
    admittedOf [0, 1, 2, 3, 4, 5, 6, 7, 8, 9, 10, 11, 12, 13, 14, 15, 61] [] =
      [0, 1, 2, 3, 4, 5, 6, 7, 8, 9, 10, 11, 12, 13, 14, 61] := by
  decide

end GenAIGame
